import Mathlib

/-!
Verification of the wine-inventory reconciliation backend
(`wine_comparison_backend.py`, with the `app.py` variant where a claim cites it).

The Python sources are shallowly embedded below.  Modelling conventions:

* pandas `NaN` cells are `Option.none`; a pandas row is a `List (Option String)`.
* Python `int` is `Int` (or `Nat` where the source value is provably nonnegative);
  all arithmetic the sources perform on these values is exact, except where a
  comment notes a floating-point caveat.
* Python regexes are modelled by explicit scanners over `List Char`.  `\d`, `\w`,
  `\s` and `str.lower`/`str.strip` are modelled at ASCII precision (the sources
  only rely on them for ASCII data once accents are removed); comments at each
  definition record the deviation.
* `unicodedata.normalize('NFD', s)` followed by removal of combining marks is an
  external library call; it is modelled by `stripAccents` (a finite table for the
  Latin-1 accented letters plus removal of the U+0300-U+036F combining block,
  identity elsewhere).  The only property of the real library the proofs use is
  that it fixes strings made of ASCII letters, digits and spaces, which
  `stripAccents` also satisfies.
* The `fuzzywuzzy` scorers (`fuzz.ratio`, `fuzz.partial_ratio`,
  `fuzz.token_sort_ratio`) are external; the engine is parametrised over a single
  function `score : String → String → Nat` standing for the pointwise maximum of
  the three.  Engine theorems quantify over `score`; concrete runs instantiate it
  with `fuzzEq`, which agrees with the real scorers on the inputs used (any of the
  three real scorers returns 100 on two equal strings).
-/

/-! ## Character utilities -/

/-- Python whitespace for `str.split()` / `str.strip()` / regex `\s`
(ASCII portion; the exotic Unicode spaces are not modelled). -/
def pyIsSpace (c : Char) : Bool :=
  c = ' ' || c = '\t' || c = '\n' || c = '\r' || c = '\x0b' || c = '\x0c'

/-- Regex `\d` (ASCII decimal digit; Python also matches Unicode digits,
which the data never contains). -/
def isDigitC (c : Char) : Bool :=
  48 ≤ c.toNat && c.toNat ≤ 57

/-- Lower-case ASCII letter, the `a-z` of the regex `[^a-z0-9\s]`. -/
def isLowerAZ (c : Char) : Bool :=
  97 ≤ c.toNat && c.toNat ≤ 122

/-- Regex `\w` (ASCII portion), used for the word boundary `\b`. -/
def wordCharB (c : Char) : Bool :=
  c.isAlphanum || c = '_'

/-- Python `str.lower` on one character (ASCII portion; non-ASCII case mapping
is irrelevant after the regex stage removes every non-`[a-z0-9\s]` character). -/
def pyLowerChar (c : Char) : Char :=
  if 65 ≤ c.toNat && c.toNat ≤ 90 then Char.ofNat (c.toNat + 32) else c

/-- Python `str.lower` on a string (ASCII portion). -/
def pyLowerS (s : String) : String :=
  ⟨s.data.map pyLowerChar⟩

/-- Python `str.strip` (ASCII whitespace). -/
def pyStrip (s : String) : String :=
  ⟨((s.data.dropWhile pyIsSpace).reverse.dropWhile pyIsSpace).reverse⟩

/-- Helper for Python's substring test `needle in hay`. -/
def subAux (needle : List Char) : List Char → Bool
  | [] => needle.isEmpty
  | c :: cs => needle.isPrefixOf (c :: cs) || subAux needle cs

/-- Python's substring containment `needle in hay`. -/
def containsSub (hay needle : String) : Bool :=
  subAux needle.data hay.data

/-- Numeric value of an ASCII digit character. -/
def digitVal (c : Char) : Nat := c.toNat - 48

/-- Value of a digit string, most significant first (`int("…")`). -/
def digitsToNat (l : List Char) : Nat :=
  l.foldl (fun a c => a * 10 + digitVal c) 0

/-! ## Decimal printing: Python `str` on integers, and `str.zfill` -/

/-- Digit character for a value below ten. -/
def digitChar (d : Nat) : Char :=
  match d with
  | 0 => '0' | 1 => '1' | 2 => '2' | 3 => '3' | 4 => '4'
  | 5 => '5' | 6 => '6' | 7 => '7' | 8 => '8' | _ => '9'

/-- Digits of a positive number, most significant first; `fuel` bounds the
recursion depth (`fuel = n` always suffices since `n` has at most `n` digits). -/
def natReprAux : Nat → Nat → List Char
  | 0, _ => []
  | _, 0 => []
  | fuel+1, n+1 => natReprAux fuel ((n+1) / 10) ++ [digitChar ((n+1) % 10)]

/-- Python `str` on a natural number. -/
def natRepr (n : Nat) : String :=
  if n = 0 then "0" else ⟨natReprAux n n⟩

/-- Python `str` on a natural number (alias used in engine messages). -/
def pyStrNat (n : Nat) : String := natRepr n

/-- Python `str` on an `int`. -/
def pyStr (i : Int) : String :=
  if i < 0 then "-" ++ natRepr i.natAbs else natRepr i.toNat

/-- Python `str.zfill`: left-pad with `'0'` to width `w`, keeping a
leading sign in front of the padding. -/
def zfill (w : Nat) (s : String) : String :=
  if w ≤ s.length then s
  else
    match s.data with
    | c :: rest =>
      if c = '-' || c = '+' then ⟨c :: (List.replicate (w - s.length) '0' ++ rest)⟩
      else ⟨List.replicate (w - s.length) '0' ++ s.data⟩
    | [] => ⟨List.replicate w '0'⟩

/-! ## Key Builder: `extract_lwin7`, `create_lwin16` (both source files) -/

/-- First run of seven consecutive digits, as matched by `re.search(r'(\d{7})', s)`. -/
def findSevenDigits : List Char → Option (List Char)
  | [] => none
  | c :: cs =>
    let w := (c :: cs).take 7
    if w.length = 7 && w.all isDigitC then some w else findSevenDigits cs

/-- Strip one leading case-insensitive `LWIN`
(`re.sub(r'^LWIN', '', s, flags=re.IGNORECASE)`). -/
def stripLwin (l : List Char) : List Char :=
  match l with
  | a :: b :: c :: d :: rest =>
    if pyLowerChar a = 'l' && pyLowerChar b = 'w' && pyLowerChar c = 'i' && pyLowerChar d = 'n'
    then rest else l
  | _ => l

/-- `extract_lwin7` from `wine_comparison_backend.py` (lines 163-183): strip the
`LWIN` prefix, take the first run of 7 digits, else zero-pad all digits (1-6 of
them) to 7, else `None`.  `none` input models a pandas `NaN`. -/
def extract_lwin7 (lwin_str : Option String) : Option String :=
  match lwin_str with
  | none => none
  | some s0 =>
    if s0 = "" then none
    else
      let l := stripLwin (pyStrip s0).data
      match findSevenDigits l with
      | some w => some ⟨w⟩
      | none =>
        let digits := l.filter isDigitC
        if digits ≠ [] && digits.length ≤ 7
        then some (zfill 7 ⟨digits⟩)
        else none

/-- First maximal run of digits in a string (`re.findall(r'\d+', s)`, head). -/
def firstDigitRun : List Char → Option (List Char)
  | [] => none
  | c :: cs =>
    if isDigitC c then some ((c :: cs).takeWhile isDigitC)
    else firstDigitRun cs

/-- `extract_lwin7` from `app.py` (lines 165-177): after stripping a literal
`LWIN` prefix, the first digit run is used only when it has at least 7 digits. -/
def extract_lwin7_app (lwin_text : Option String) : Option String :=
  match lwin_text with
  | none => none
  | some s0 =>
    let l := stripLwin (pyStrip s0).data
    match firstDigitRun l with
    | some run => if 7 ≤ run.length then some ⟨run.take 7⟩ else none
    | none => none

/-- `create_lwin16` from `wine_comparison_backend.py` (lines 185-193):
`lwin7 + str(vintage).zfill(4) + str(size_cl).zfill(5)`; `None` (or an empty
string, both falsy) gives `None`. -/
def create_lwin16 (lwin7 : Option String) (vintage : Int) (size_cl : Int) : Option String :=
  match lwin7 with
  | none => none
  | some l =>
    if l = "" then none
    else some (l ++ zfill 4 (pyStr vintage) ++ zfill 5 (pyStr size_cl))

/-- Modelled from the spec wording of claim C1 (refinement comparison only, not
from the source): concatenation of `identifier7`, the vintage zero-padded to 4
digits, and the representation of `volume_cl` multiplied by 10 zero-padded to 5
digits; absent whenever `identifier7` is absent. -/
def build_exact_key_specced (identifier7 : Option String) (vintage : Int) (volume_cl : Int) :
    Option String :=
  match identifier7 with
  | none => none
  | some l => some (l ++ zfill 4 (pyStr vintage) ++ zfill 5 (pyStr (volume_cl * 10)))

/-! ## Key Builder: `normalize_vintage` (backend lines 104-132) -/

/-- Word-boundary test against the character preceding the candidate match
(regex `\b`; `none` means start of string). -/
def boundaryB : Option Char → Bool
  | none => true
  | some c => !wordCharB c

/-- Value of a matched 4-digit year token. -/
def yearVal (c1 c2 c3 c4 : Char) : Int :=
  ((1000 * digitVal c1 + 100 * digitVal c2 + 10 * digitVal c3 + digitVal c4 : Nat) : Int)

/-- Left-to-right scan for `re.search(r'\b(19\d{2}|20\d{2})\b', s)`: the first
position with a word boundary before it, four characters `19dd` or `20dd`, and a
word boundary after them.  `prev` is the character before the current position. -/
def findYearAux : Option Char → List Char → Option Int
  | _, [] => none
  | prev, c1 :: c2 :: c3 :: c4 :: rest4 =>
    if boundaryB prev && ((c1 = '1' && c2 = '9') || (c1 = '2' && c2 = '0'))
        && isDigitC c3 && isDigitC c4
        && (match rest4 with | [] => true | d :: _ => !wordCharB d)
    then some (yearVal c1 c2 c3 c4)
    else findYearAux (some c1) (c2 :: c3 :: c4 :: rest4)
  | _, c1 :: rest => findYearAux (some c1) rest

/-- `re.search(r'\b(19\d{2}|20\d{2})\b', s)`, as an integer result. -/
def findYear (l : List Char) : Option Int :=
  findYearAux none l

/-- Python `int(float(s))` for a sign-free decimal string: optional surrounding
whitespace, optional `+`, digits, optional `.` with trailing digits; the result
is the integer part (truncation of a nonnegative value).  Exponent notation,
`inf`/`nan` and digit-group underscores are not modelled (each would either fail
the caller's 1900-2030 guard or not occur in vintage data). -/
def pyParseIntFloat (l : List Char) : Option Nat :=
  let l1 := ((l.dropWhile pyIsSpace).reverse.dropWhile pyIsSpace).reverse
  let l2 := match l1 with | '+' :: t => t | _ => l1
  let ip := l2.takeWhile isDigitC
  match l2.dropWhile isDigitC with
  | [] => if ip = [] then none else some (digitsToNat ip)
  | '.' :: t =>
    if t.all isDigitC && (ip ≠ [] || t ≠ []) then some (digitsToNat ip) else none
  | _ => none

/-- Tail of `normalize_vintage` after the `-` cut (backend lines 117-129):
year-token search, then guarded direct parse. -/
def vintageFromToken (s1 : List Char) : Int :=
  match findYear s1 with
  | some y => y
  | none =>
    match pyParseIntFloat s1 with
    | some n => if 1900 ≤ n && n ≤ 2030 then (n : Int) else 1000
    | none => 1000

/-- `normalize_vintage` from `wine_comparison_backend.py` (lines 104-132):
sentinel 1000 for `NaN`/empty/`NV`; otherwise strip, cut at the first `-`
(range notation), search for a `19xx`/`20xx` token and return it if found, else
`int(float(...))` guarded to `[1900, 2030]`; anything else is 1000. -/
def normalize_vintage (vintage : Option String) : Int :=
  match vintage with
  | none => 1000
  | some s0 =>
    if s0 = "" || s0 = "NV" then 1000
    else
      let s := (pyStrip s0).data
      vintageFromToken (if s.contains '-' then s.takeWhile (fun c => c != '-') else s)

/-! ## Key Builder: `normalize_size` (backend lines 134-161) -/

/-- First match of `re.search(r'(\d+(?:[.,]\d+)?)', s)`: the integer-part value
and the list of fractional digits (empty when no decimal separator follows). -/
def extractNumber : List Char → Option (Nat × List Char)
  | [] => none
  | c :: cs =>
    if isDigitC c then
      let ip := (c :: cs).takeWhile isDigitC
      match (c :: cs).dropWhile isDigitC with
      | sep :: r2 =>
        if (sep = '.' || sep = ',') && (match r2 with | d :: _ => isDigitC d | [] => false)
        then some (digitsToNat ip, r2.takeWhile isDigitC)
        else some (digitsToNat ip, [])
      | [] => some (digitsToNat ip, [])
    else extractNumber cs

/-- Contribution of the fractional digits `f` to `int(number * 100)`:
`⌊0.f * 100⌋`, computed exactly. -/
def fracTimes100 (f : List Char) : Nat :=
  digitsToNat f * 100 / 10 ^ f.length

/-- `normalize_size` from `wine_comparison_backend.py` (lines 134-161).  With
`number = a + f/10^len(f)` nonnegative, `int(number * 100)`, `int(number / 10)`
and `int(number)` are computed exactly in integer arithmetic (Python's binary
floating point can differ by one unit on some decimal fractions; the integer
and scale-by-100 cases relevant to the claims are exact). -/
def normalize_size (size : Option String) (unit : String) : Int :=
  match size with
  | none => 75
  | some s0 =>
    if s0 = "" then 75
    else
      let s := pyStrip (pyLowerS s0)
      match extractNumber s.data with
      | none => 75
      | some (a, f) =>
        if unit = "L" || containsSub s "l" || containsSub s "litre" then
          ((a * 100 + fracTimes100 f : Nat) : Int)
        else if containsSub s "ml" then
          ((a * 10 ^ f.length + digitsToNat f) / (10 ^ f.length * 10) : Nat)
        else (a : Int)

/-- Modelled from the spec wording of claim C3 (refinement comparison only, not
from the source): the volume corroboration the spec describes, `|a - b| ≤ 10` or
the ratio `a/b` within 5% of one of 1, 0.01, 100, 0.1, 10. -/
def volumeCheckSpecced (a b : ℚ) : Bool :=
  decide (|a - b| ≤ 10) ||
    ([1, 1/100, 100, 1/10, 10] : List ℚ).any (fun r => decide (|a / b - r| ≤ r * (5 / 100)))

/-! ## Text Normalizer: `normalize_string` (backend lines 61-88) -/

/-- Accented Latin-1 letters and their NFD base letters.  `unicodedata`'s full
decomposition table is external; this covers the letters occurring in the data
(the proofs only use that every left component is non-ASCII). -/
def accentPairs : List (Char × Char) :=
  [('à', 'a'), ('â', 'a'), ('ä', 'a'), ('á', 'a'), ('ã', 'a'), ('å', 'a'),
   ('ç', 'c'), ('è', 'e'), ('é', 'e'), ('ê', 'e'), ('ë', 'e'),
   ('ì', 'i'), ('í', 'i'), ('î', 'i'), ('ï', 'i'), ('ñ', 'n'),
   ('ò', 'o'), ('ó', 'o'), ('ô', 'o'), ('ö', 'o'), ('õ', 'o'),
   ('ù', 'u'), ('ú', 'u'), ('û', 'u'), ('ü', 'u'), ('ý', 'y'), ('ÿ', 'y'),
   ('À', 'A'), ('Â', 'A'), ('Ä', 'A'), ('Á', 'A'), ('Ã', 'A'), ('Å', 'A'),
   ('Ç', 'C'), ('È', 'E'), ('É', 'E'), ('Ê', 'E'), ('Ë', 'E'),
   ('Ì', 'I'), ('Í', 'I'), ('Î', 'I'), ('Ï', 'I'), ('Ñ', 'N'),
   ('Ò', 'O'), ('Ó', 'O'), ('Ô', 'O'), ('Ö', 'O'), ('Õ', 'O'),
   ('Ù', 'U'), ('Ú', 'U'), ('Û', 'U'), ('Ü', 'U'), ('Ý', 'Y')]

/-- One character of `unicodedata.normalize('NFD', s)` followed by removal of
category-`Mn` characters: accented letters decompose and keep their base letter,
characters of the combining block U+0300-U+036F are dropped, everything else is
kept. -/
def stripAccentsChar (c : Char) : Option Char :=
  if 768 ≤ c.toNat && c.toNat ≤ 879 then none
  else
    match accentPairs.find? (fun p => p.1 = c) with
    | some p => some p.2
    | none => some c

/-- The accent-removal stage of `normalize_string`. -/
def stripAccents (l : List Char) : List Char :=
  l.filterMap stripAccentsChar

/-- The regex stage `re.sub(r'[^a-z0-9\s]', ' ', s)`, one character. -/
def cleanChar (c : Char) : Char :=
  if isLowerAZ c || isDigitC c || pyIsSpace c then c else ' '

/-- Python `s.split()` with explicit fuel (`fuel = length` suffices; the fuel
makes the recursion structural so that concrete runs reduce in the kernel). -/
def splitWSF : Nat → List Char → List (List Char)
  | 0, _ => []
  | fuel+1, l =>
    match l.dropWhile pyIsSpace with
    | [] => []
    | c :: cs =>
      (c :: cs).takeWhile (fun x => !pyIsSpace x) ::
        splitWSF fuel ((c :: cs).dropWhile (fun x => !pyIsSpace x))

/-- Python `s.split()`: maximal whitespace-free words, empties dropped. -/
def pySplit (l : List Char) : List (List Char) :=
  splitWSF l.length l

/-- Python `' '.join(ws)`. -/
def joinSp : List (List Char) → List Char
  | [] => []
  | [w] => w
  | w :: ws => w ++ ' ' :: joinSp ws

/-- Python `' '.join(s.split())`: collapse whitespace runs and trim. -/
def collapseWS (l : List Char) : List Char :=
  joinSp (pySplit l)

/-- The character-list body of `normalize_string`: accents stripped, lowercased,
non-`[a-z0-9\s]` replaced by spaces, whitespace collapsed. -/
def normalizeL (l : List Char) : List Char :=
  collapseWS (((stripAccents l).map pyLowerChar).map cleanChar)

/-- Well-formed word lists: what `s.split()` produces — every word nonempty and
whitespace-free. -/
def okWords (ws : List (List Char)) : Prop :=
  ∀ w ∈ ws, w ≠ [] ∧ ∀ c ∈ w, pyIsSpace c = false

/-- `normalize_string` from `wine_comparison_backend.py` (lines 61-88).  The
`pd.isna(s)` branch concerns non-string `NaN` arguments and is not reachable for
string input; the `s == ''` branch is the guard kept here. -/
def normalize_string (s : String) : String :=
  if s = "" then "" else ⟨normalizeL s.data⟩

/-! ## Canonical records -/

/-- One processed cellar-book record, the dictionary built by
`process_livredecave` (backend lines 268-276).  The Google-Sheet side has the
same shape minus `original_row`; that field is simply unused for reference
records. -/
structure Wine where
  original_row : Nat
  wine : String
  wine_normalized : String
  vintage : Int
  contenance_cl : Int
  lwin7 : Option String
  lwin16 : Option String
deriving DecidableEq

/-- One entry of the `missing_wines` result list (backend lines 419-427).
`vintage = none` renders the source's `'NV'` (stored when the vintage equals the
sentinel 1000). -/
structure MissingWine where
  original_row : Nat
  wine : String
  vintage : Option Int
  contenance_cl : Int
  lwin7 : Option String
  match_type : String
  reason : String
deriving DecidableEq

/-! ## Accessory Filter and Record Projector (backend lines 49-55, 90-102, 221-282) -/

/-- The static keyword list `ACCESSORY_KEYWORDS` (backend lines 49-55). -/
def ACCESSORY_KEYWORDS : List String :=
  ["caisse", "carton", "coffret", "box", "étui", "emballage",
   "tire-bouchon", "décanteur", "verre", "flute", "coupe",
   "seau", "rafraîchisseur", "thermomètre", "bouchon", "capsule",
   "catalogue", "livre", "book", "poster", "affiche",
   "gift", "cadeau", "accessoire", "outil", "support"]

/-- `is_accessory` (backend lines 90-102): case-insensitive substring search of
any keyword in the name.  The `pd.isna` branch concerns non-string `NaN` input,
not reachable for the joined name strings it is called on. -/
def is_accessory (wine_name : String) : Bool :=
  ACCESSORY_KEYWORDS.any (fun kw => containsSub (pyLowerS wine_name) kw)

/-- `row.iloc[i] if len(row) > i else ''`: in-range cells are returned as stored
(`none` models a pandas `NaN`), short rows give the empty string. -/
def cellAt (row : List (Option String)) (i : Nat) : Option String :=
  match row.get? i with
  | some v => v
  | none => some ""

/-- One iteration of the `process_livredecave` loop (backend lines 228-280) on
the 0-based row index `idx` and the row: join the stripped nonempty cells of
columns C, E, F, G (indices 2, 4, 5, 6) into the wine name; skip empty names and
accessories; normalize vintage (column H, index 7), size in liters (column I,
index 8) and LWIN7 (column K, index 10); build the LWIN16. -/
def processRowLD (idx : Nat) (row : List (Option String)) : Option Wine :=
  let parts := [2, 4, 5, 6].filterMap (fun i =>
    match row.get? i with
    | some (some s) => if pyStrip s = "" then none else some (pyStrip s)
    | _ => none)
  let wine_name : String := ⟨joinSp (parts.map String.data)⟩
  if wine_name = "" then none
  else if is_accessory wine_name then none
  else
    let vintage := normalize_vintage (cellAt row 7)
    let size_cl := normalize_size (cellAt row 8) "L"
    let lwin7 := extract_lwin7 (cellAt row 10)
    some
      { original_row := idx + 2
        wine := wine_name
        wine_normalized := normalize_string wine_name
        vintage := vintage
        contenance_cl := size_cl
        lwin7 := lwin7
        lwin16 :=
          match lwin7 with
          | some l => if l = "" then none else create_lwin16 (some l) vintage size_cl
          | none => none }

/-- `process_livredecave` (backend lines 221-282): per-row projection in source
order; the `original_row` diagnostic is the 0-based index plus 2 (header line).
The per-row `try/except` cannot fire in this total model. -/
def process_livredecave (rows : List (List (Option String))) : List Wine :=
  rows.enum.filterMap (fun p => processRowLD p.1 p.2)

/-! ## Reconciliation Engine: `fuzzy_match_wines` (backend lines 337-431)

The engine is parametrised over `score : String → String → Nat`, standing for
`max(fuzz.ratio, fuzz.partial_ratio, fuzz.token_sort_ratio)` applied to the two
normalized names (backend lines 370-375); the `fuzzywuzzy` library is external
to the repository. -/

/-- The reference exact-key index
`set(googlesheet_df[googlesheet_df['lwin16'].notna()]['lwin16'])`
(backend line 342); only membership is ever used, so a list suffices. -/
def gsKeys (gs : List Wine) : List String :=
  gs.filterMap Wine.lwin16

/-- The exact-phase test `ld_row['lwin16'] and ld_row['lwin16'] in gs_lwin16_set`
(backend line 354); an empty string is falsy in Python. -/
def exactHit (keys : List String) (r : Wine) : Bool :=
  match r.lwin16 with
  | some k => k != "" && keys.contains k
  | none => false

/-- The best-candidate scan (backend lines 362-380): fold over the reference
records in order, keeping the first candidate attaining the strictly largest
score; initial state `best_score = 0`, `best_match = None`. -/
def bestMatch (score : String → String → Nat) (q : String) (gs : List Wine) :
    Nat × Option Wine :=
  gs.foldl
    (fun acc g =>
      let s := score q g.wine_normalized
      if acc.1 < s then (s, some g) else acc)
    (0, none)

/-- The vintage corroboration (backend lines 390-392): equal, or either side is
the sentinel 1000. -/
def vintage_match (a b : Int) : Bool :=
  a == b || a == 1000 || b == 1000

/-- The volume corroboration (backend lines 395-396):
`abs(a - b) <= 10 or (a == 75 and b == 75)`; `abs(a - b) <= 10` is stated on
`Int.natAbs` (an equivalent form that evaluates in the kernel). -/
def size_match (a b : Int) : Bool :=
  decide ((a - b).natAbs ≤ 10) || (a == 75 && b == 75)

/-- A `missing_wines` entry for record `r` (backend lines 419-427). -/
def mkMissing (r : Wine) (mt reason : String) : MissingWine :=
  { original_row := r.original_row
    wine := r.wine
    vintage := if r.vintage = 1000 then none else some r.vintage
    contenance_cl := r.contenance_cl
    lwin7 := r.lwin7
    match_type := mt
    reason := reason }

/-- Reason string of backend line 410. -/
def reasonNoFuzzy (s : Nat) : String :=
  "Pas de correspondance fuzzy suffisante (meilleur score: " ++ pyStrNat s ++ "%)"

/-- Reason string of backend lines 403-407. -/
def reasonCorro (s : Nat) (vOK : Bool) (aV bV : Int) (sOK : Bool) (aC bC : Int) : String :=
  "Fuzzy match trouvé (" ++ pyStrNat s ++ "%) mais " ++
    (if vOK then "" else "millésime différent (" ++ pyStr aV ++ " vs " ++ pyStr bV ++ ") ") ++
    (if sOK then "" else "contenance différente (" ++ pyStr aC ++ "cl vs " ++ pyStr bC ++ "cl)")

/-- One iteration of the `fuzzy_match_wines` loop (backend lines 348-427) for a
cellar record `r`: `none` when the record is matched (exact hit, or fuzzy score
at least `threshold` with both corroborations), otherwise the `missing_wines`
entry appended for it.  The source fixes `threshold = 70` (line 365); it is a
parameter here so that threshold-variation claims are statable.  A missing
record's `match_type` is always the initial `'none'` (the other values are set
only on matched records, which are not appended), and an empty `reason` falls
back to `'Aucune correspondance trouvée'` (line 426). -/
def matchRecord (score : String → String → Nat) (keys : List String) (gs : List Wine)
    (threshold : Nat) (r : Wine) : Option MissingWine :=
  if exactHit keys r then none
  else if r.wine_normalized ≠ "" then
    match bestMatch score r.wine_normalized gs with
    | (bs, some bm) =>
      if threshold ≤ bs then
        if vintage_match r.vintage bm.vintage && size_match r.contenance_cl bm.contenance_cl
        then none
        else some (mkMissing r "none"
          (reasonCorro bs (vintage_match r.vintage bm.vintage) r.vintage bm.vintage
            (size_match r.contenance_cl bm.contenance_cl) r.contenance_cl bm.contenance_cl))
      else some (mkMissing r "none" (reasonNoFuzzy bs))
    | (bs, none) => some (mkMissing r "none" (reasonNoFuzzy bs))
  else some (mkMissing r "none" "Aucune correspondance trouvée")

/-- `fuzzy_match_wines` (backend lines 337-431): the missing-record list for the
cellar records `ld` against the reference records `gs`, in source order, with the
source's threshold 70. -/
def fuzzy_match_wines (score : String → String → Nat) (ld gs : List Wine) : List MissingWine :=
  ld.filterMap (matchRecord score (gsKeys gs) gs 70)

/-- The approximate-phase acceptance test in isolation: the best candidate
exists, scores at least `t`, and passes both corroborations.  Defined from
`bestMatch` so that claims can relate the engine's decision to it. -/
def fuzzyAccepts (score : String → String → Nat) (gs : List Wine) (t : Nat) (r : Wine) : Bool :=
  match bestMatch score r.wine_normalized gs with
  | (bs, some bm) =>
    t ≤ bs && vintage_match r.vintage bm.vintage && size_match r.contenance_cl bm.contenance_cl
  | (_, none) => false

/-- Record `r` is reported matched via the approximate phase at threshold `t`:
the exact phase missed, yet no missing entry is produced for it. -/
def matchedViaFuzzy (score : String → String → Nat) (keys : List String) (gs : List Wine)
    (t : Nat) (r : Wine) : Bool :=
  !exactHit keys r && (matchRecord score keys gs t r).isNone

/-- A concrete stand-in scorer for witnesses and counterexamples: it agrees with
the external `fuzzywuzzy` maximum on the inputs of those runs (each of
`fuzz.ratio`, `fuzz.partial_ratio` and `fuzz.token_sort_ratio` returns 100 on two
equal strings). -/
def fuzzEq (a b : String) : Nat :=
  if a = b then 100 else 0

/-- The shape invariant of claim C10: absent, or exactly 7 decimal digits. -/
def sevenDigits (o : Option String) : Bool :=
  match o with
  | none => true
  | some r => r.length == 7 && r.data.all isDigitC

/-- Concrete reference record used by engine witnesses and counterexamples. -/
def gRef : Wine :=
  { original_row := 0, wine := "Petrus", wine_normalized := "petrus", vintage := 2010,
    contenance_cl := 75, lwin7 := some "7654321", lwin16 := some "7654321201000075" }

/-- Concrete cellar record carrying an LWIN7 whose LWIN16 misses the reference
index, with the same normalized name as `gRef`. -/
def cManqueExact : Wine :=
  { original_row := 2, wine := "Petrus", wine_normalized := "petrus", vintage := 2010,
    contenance_cl := 75, lwin7 := some "1234567", lwin16 := some "1234567201000075" }

/-- Concrete cellar record without an LWIN7, fuzzy-matchable against `gRef`. -/
def cSansLwin : Wine :=
  { original_row := 3, wine := "PETRUS", wine_normalized := "petrus", vintage := 1000,
    contenance_cl := 75, lwin7 := none, lwin16 := none }

/-- Concrete cellar record whose LWIN16 is present in the reference index. -/
def cExact : Wine :=
  { original_row := 4, wine := "Pétrus (autre libellé)", wine_normalized := "petrus autre libelle",
    vintage := 2010, contenance_cl := 75, lwin7 := some "7654321",
    lwin16 := some "7654321201000075" }

/-- The record that `process_livredecave` projects from a row whose only cell
is `"***"`: a nonempty display name whose normalization is empty. -/
def wStar : Wine :=
  { original_row := 2, wine := "***", wine_normalized := "", vintage := 1000,
    contenance_cl := 75, lwin7 := none, lwin16 := none }

/-! ## Helper lemmas -/

theorem length_mk (l : List Char) : (String.mk l).length = l.length := rfl

theorem length_data (s : String) : s.length = s.data.length := rfl

theorem data_mk (l : List Char) : (String.mk l).data = l := rfl

theorem zfill_length (w : Nat) (s : String) : (zfill w s).length = max w s.length := by
  obtain ⟨l⟩ := s
  unfold zfill
  simp only [data_mk, length_mk]
  by_cases h : w ≤ l.length
  · simp only [h, if_true, length_mk]
    omega
  · simp only [h, if_false]
    cases l with
    | nil =>
      simp only [length_mk, List.length_replicate, List.length_nil]
      omega
    | cons c rest =>
      simp only [Bool.or_eq_true, decide_eq_true_eq]
      simp only [List.length_cons] at h
      by_cases hc : c = '-' ∨ c = '+'
      · simp only [hc, if_true, length_mk, List.length_cons, List.length_append,
          List.length_replicate]
        omega
      · simp only [hc, if_false, length_mk, List.length_append, List.length_replicate,
          List.length_cons]
        omega

theorem zfill_all_digits (w : Nat) (s : String) (h : ∀ c ∈ s.data, isDigitC c = true) :
    ∀ c ∈ (zfill w s).data, isDigitC c = true := by
  obtain ⟨l⟩ := s
  simp only [data_mk] at h
  unfold zfill
  simp only [data_mk, length_mk]
  by_cases hw : w ≤ l.length
  · simp only [hw, if_true, data_mk]
    exact h
  · simp only [hw, if_false]
    cases l with
    | nil =>
      simp only [data_mk]
      intro c hc
      simp only [List.mem_replicate] at hc
      rw [hc.2]; decide
    | cons c0 rest =>
      have hd : isDigitC c0 = true := h c0 (by simp)
      have hsign : ¬(c0 = '-' ∨ c0 = '+') := by
        rintro (rfl | rfl) <;> exact absurd hd (by decide)
      simp only [Bool.or_eq_true, decide_eq_true_eq, hsign, if_false, data_mk]
      intro c hc
      rcases List.mem_append.mp hc with h1 | h2
      · rw [List.eq_of_mem_replicate h1]; decide
      · exact h c h2

theorem natReprAux_length_le : ∀ fuel n k, n < 10 ^ k → (natReprAux fuel n).length ≤ k := by
  intro fuel
  induction fuel with
  | zero => intro n k _; simp [natReprAux]
  | succ f ih =>
    intro n k hn
    match n with
    | 0 => simp [natReprAux]
    | m + 1 =>
      match k with
      | 0 => omega
      | j + 1 =>
        have hdiv : (m + 1) / 10 < 10 ^ j := by
          rw [Nat.div_lt_iff_lt_mul (by norm_num)]
          calc m + 1 < 10 ^ (j + 1) := hn
            _ = 10 ^ j * 10 := by ring
        have := ih ((m + 1) / 10) j hdiv
        simp only [natReprAux, List.length_append, List.length_cons, List.length_nil]
        omega

theorem natRepr_length_le (n k : Nat) (h : n < 10 ^ k) (hk : 1 ≤ k) :
    (natRepr n).length ≤ k := by
  unfold natRepr
  by_cases h0 : n = 0
  · simpa [h0] using hk
  · simpa [h0, length_mk] using natReprAux_length_le n n k h

theorem findSevenDigits_ok (l : List Char) :
    ∀ w, findSevenDigits l = some w → w.length = 7 ∧ w.all isDigitC = true := by
  induction l with
  | nil => intro w h; simp [findSevenDigits] at h
  | cons c cs ih =>
    intro w h
    simp only [findSevenDigits] at h
    split at h
    · rename_i hcond
      cases h
      simp only [Bool.and_eq_true, decide_eq_true_eq] at hcond
      exact ⟨hcond.1, hcond.2⟩
    · exact ih w h

theorem firstDigitRun_digits (l : List Char) :
    ∀ run, firstDigitRun l = some run → ∀ c ∈ run, isDigitC c = true := by
  induction l with
  | nil => intro run h; simp [firstDigitRun] at h
  | cons c cs ih =>
    intro run h
    simp only [firstDigitRun] at h
    split at h
    · cases h
      intro x hx
      exact List.mem_takeWhile_imp hx
    · exact ih run h

theorem findYearAux_range :
    ∀ (l : List Char) (prev : Option Char) (y : Int),
      findYearAux prev l = some y → 1900 ≤ y ∧ y ≤ 2099 := by
  intro l
  induction l with
  | nil => intro prev y h; simp [findYearAux] at h
  | cons c1 rest ih =>
    intro prev y h
    rcases rest with _ | ⟨c2, _ | ⟨c3, _ | ⟨c4, rest4⟩⟩⟩
    · simp [findYearAux] at h
    · simp only [findYearAux] at h
      exact ih (some c1) y h
    · simp only [findYearAux] at h
      exact ih (some c1) y h
    · simp only [findYearAux] at h
      split at h
      · rename_i hcond
        cases h
        simp only [Bool.and_eq_true, Bool.or_eq_true, decide_eq_true_eq] at hcond
        obtain ⟨⟨⟨⟨_, hyear⟩, hd3⟩, hd4⟩, _⟩ := hcond
        have h3 : digitVal c3 ≤ 9 := by
          simp only [isDigitC, Bool.and_eq_true, decide_eq_true_eq] at hd3
          simp only [digitVal]; omega
        have h4 : digitVal c4 ≤ 9 := by
          simp only [isDigitC, Bool.and_eq_true, decide_eq_true_eq] at hd4
          simp only [digitVal]; omega
        rcases hyear with ⟨rfl, rfl⟩ | ⟨rfl, rfl⟩
        · have e1 : digitVal '1' = 1 := rfl
          have e2 : digitVal '9' = 9 := rfl
          simp only [yearVal, e1, e2]
          omega
        · have e1 : digitVal '2' = 2 := rfl
          have e2 : digitVal '0' = 0 := rfl
          simp only [yearVal, e1, e2]
          omega
      · exact ih (some c1) y h

theorem vintageFromToken_range (l : List Char) :
    vintageFromToken l = 1000 ∨ (1900 ≤ vintageFromToken l ∧ vintageFromToken l ≤ 2099) := by
  unfold vintageFromToken
  cases hfy : findYear l with
  | some y =>
    dsimp only
    exact Or.inr (findYearAux_range l none y hfy)
  | none =>
    dsimp only
    cases hp : pyParseIntFloat l with
    | some n =>
      dsimp only
      split
      · rename_i hcond
        simp only [Bool.and_eq_true, decide_eq_true_eq] at hcond
        obtain ⟨ha, hb⟩ := hcond
        right
        constructor <;> omega
      · exact Or.inl rfl
    | none => exact Or.inl rfl

/-! ## Claim theorems -/

/-- Claim C10 (confirmed): for every input, `extract_lwin7` — in both the
backend and the `app.py` implementation — returns either absent or a string of
exactly 7 characters, all decimal digits. -/
theorem extract_lwin7_seven_digits (s : Option String) :
    sevenDigits (extract_lwin7 s) = true ∧ sevenDigits (extract_lwin7_app s) = true := by
  constructor
  · cases s with
    | none => rfl
    | some s0 =>
      by_cases h0 : s0 = ""
      · simp [extract_lwin7, h0, sevenDigits]
      · simp only [extract_lwin7, h0, if_false]
        cases hf : findSevenDigits (stripLwin (pyStrip s0).data) with
        | some w =>
          obtain ⟨hlen, hall⟩ := findSevenDigits_ok _ w hf
          simp [sevenDigits, length_mk, data_mk, hlen, hall]
        | none =>
          simp only []
          split
          · rename_i hcond
            simp only [Bool.and_eq_true, decide_eq_true_eq] at hcond
            simp only [sevenDigits, Bool.and_eq_true, beq_iff_eq, List.all_eq_true]
            refine ⟨?_, ?_⟩
            · rw [zfill_length, length_mk]
              omega
            · intro c hc
              refine zfill_all_digits 7 _ ?_ c hc
              intro x hx
              rw [data_mk] at hx
              exact (List.mem_filter.mp hx).2
          · rfl
  · cases s with
    | none => rfl
    | some s0 =>
      simp only [extract_lwin7_app]
      cases hr : firstDigitRun (stripLwin (pyStrip s0).data) with
      | none => rfl
      | some run =>
        simp only []
        split
        · rename_i hcond
          simp only [sevenDigits, Bool.and_eq_true, beq_iff_eq, List.all_eq_true, length_mk,
            data_mk]
          refine ⟨?_, ?_⟩
          · rw [List.length_take]
            omega
          · intro c hc
            exact firstDigitRun_digits _ run hr c (List.take_subset 7 run hc)
        · rfl

/-- Claim C1 counterexample: at `identifier7 = "1234567"`, `vintage = 2015`,
`volume_cl = 75`, the source `create_lwin16` pads the volume as `00075` —
it does not multiply it by 10 as the claim (and the spec's `volume_cl`×10
wording) requires, which would give `00750`. -/
theorem create_lwin16_no_times_ten :
    create_lwin16 (some "1234567") 2015 75 = some "1234567201500075" ∧
    build_exact_key_specced (some "1234567") 2015 75 = some "1234567201500750" ∧
    create_lwin16 (some "1234567") 2015 75 ≠ build_exact_key_specced (some "1234567") 2015 75 := by
  refine ⟨by decide, by decide, by decide⟩

/-- Claim C1 as amended: for a defined 7-character `identifier7` and in-range
vintage and volume, `create_lwin16` returns the 16-character concatenation of
`identifier7`, the vintage zero-padded to 4 digits and `volume_cl` itself
(not multiplied by 10) zero-padded to 5 digits; absent `identifier7` always
yields an absent key.  Determinism holds because `create_lwin16` is a pure
function. -/
theorem create_lwin16_amended (l7 : String) (v vol : Int)
    (h7 : l7.length = 7) (hv0 : 0 ≤ v) (hv : v ≤ 9999) (hvol0 : 0 ≤ vol) (hvol : vol ≤ 99999) :
    create_lwin16 (some l7) v vol
      = some (l7 ++ zfill 4 (pyStr v) ++ zfill 5 (pyStr vol)) ∧
    (l7 ++ zfill 4 (pyStr v) ++ zfill 5 (pyStr vol)).length = 16 ∧
    ∀ (v2 c2 : Int), create_lwin16 none v2 c2 = none := by
  have hne : l7 ≠ "" := by
    intro he
    rw [he] at h7
    simp [length_data, data_mk] at h7
  refine ⟨by simp [create_lwin16, hne], ?_, fun _ _ => rfl⟩
  have hv4 : (pyStr v).length ≤ 4 := by
    unfold pyStr
    rw [if_neg (by omega : ¬ v < 0)]
    refine natRepr_length_le v.toNat 4 ?_ (by norm_num)
    have h1 : v.toNat ≤ 9999 := by omega
    calc v.toNat ≤ 9999 := h1
      _ < 10 ^ 4 := by norm_num
  have hv5 : (pyStr vol).length ≤ 5 := by
    unfold pyStr
    rw [if_neg (by omega : ¬ vol < 0)]
    refine natRepr_length_le vol.toNat 5 ?_ (by norm_num)
    have h1 : vol.toNat ≤ 99999 := by omega
    calc vol.toNat ≤ 99999 := h1
      _ < 10 ^ 5 := by norm_num
  rw [String.length_append, String.length_append, h7, zfill_length, zfill_length]
  omega

/-- Claim C1 amended, witness at `("1234567", 2015, 75)`. -/
theorem create_lwin16_amended_witness :
    ("1234567" : String).length = 7 ∧ (0 : Int) ≤ 2015 ∧ (2015 : Int) ≤ 9999 ∧
      (0 : Int) ≤ 75 ∧ (75 : Int) ≤ 99999 ∧
      (create_lwin16 (some "1234567") 2015 75
          = some ("1234567" ++ zfill 4 (pyStr 2015) ++ zfill 5 (pyStr 75)) ∧
        ("1234567" ++ zfill 4 (pyStr 2015) ++ zfill 5 (pyStr 75)).length = 16 ∧
        ∀ (v2 c2 : Int), create_lwin16 none v2 c2 = none) :=
  ⟨by decide, by decide, by decide, by decide, by decide,
    create_lwin16_amended "1234567" 2015 75 (by decide) (by decide) (by decide)
      (by decide) (by decide)⟩

/-- Claim C3 counterexample: the volumes 750 and 75 have ratio exactly 10, so
the spec's ratio-based corroboration accepts them, but the source volume check
`abs(a - b) <= 10 or (a == 75 and b == 75)` rejects them: the code contains no
ratio test. -/
theorem volume_check_no_ratio_test :
    volumeCheckSpecced 750 75 = true ∧ size_match 750 75 = false := by
  constructor
  · simp only [volumeCheckSpecced, List.any_cons, List.any_nil, Bool.or_eq_true,
      decide_eq_true_eq]
    norm_num
  · decide

/-- Claim C3 as amended: the volume corroboration passes iff the two volumes
are within 10 cl of each other (the source's second disjunct
`a == 75 and b == 75` is subsumed by the first); there is no ratio-based
unit-scale acceptance, so e.g. 0.75-as-cl vs 75 does not pass. -/
theorem size_match_iff_abs_le_ten (a b : Int) :
    size_match a b = true ↔ |a - b| ≤ 10 := by
  unfold size_match
  simp only [Bool.or_eq_true, Bool.and_eq_true, decide_eq_true_eq, beq_iff_eq]
  rw [abs_sub_le_iff]
  constructor
  · rintro (h | ⟨rfl, rfl⟩)
    · omega
    · norm_num
  · intro h
    left
    omega

/-- Claim C4 counterexample: `normalize_vintage("2099")` returns 2099, which is
neither the sentinel 1000 nor within the claimed bound `[1900, 2030]` (nor the
earlier variant's `[1800, 2030]`): the year-token regex `19\d{2}|20\d{2}`
bypasses the `[1900, 2030]` guard, which only protects the direct-parse path. -/
theorem normalize_vintage_out_of_documented_range :
    normalize_vintage (some "2099") = 2099 ∧
    ¬(normalize_vintage (some "2099") = 1000 ∨
      (1900 ≤ normalize_vintage (some "2099") ∧ normalize_vintage (some "2099") ≤ 2030)) := by
  refine ⟨by decide, by decide⟩

/-- Claim C4 as amended: for every input, `normalize_vintage` returns either
the sentinel 1000 or an integer in `[1900, 2099]` — the regex path accepts any
`19xx`/`20xx` token, while the direct-parse path alone is limited to
`[1900, 2030]`. -/
theorem normalize_vintage_range (v : Option String) :
    normalize_vintage v = 1000 ∨
      (1900 ≤ normalize_vintage v ∧ normalize_vintage v ≤ 2099) := by
  match v with
  | none => exact Or.inl rfl
  | some s0 =>
    unfold normalize_vintage
    dsimp only
    by_cases h0 : (decide (s0 = "") || decide (s0 = "NV")) = true
    · rw [if_pos h0]
      exact Or.inl rfl
    · rw [if_neg h0]
      exact vintageFromToken_range _

/-- Claim C5, behaviour at the failing input: `"750ml"` contains `"ml"`, yet
`normalize_size` returns 75000 cl (the liters branch fires because `'l'` is a
substring of `"ml"`), not the 75 cl the divide-by-10 rule of the claim
prescribes; the source's own `elif 'ml' in size_str` branch is unreachable. -/
theorem normalize_size_ml_is_caught_by_l :
    containsSub (pyStrip (pyLowerS "750ml")) "ml" = true ∧
    normalize_size (some "750ml") "cl" = 75000 := by
  refine ⟨by decide, by decide⟩

/-- Claim C6 (confirmed): a cellar record whose exact key is defined and present
in the reference key index is reported matched — it contributes nothing to the
missing list — for every scorer, reference collection and surrounding records:
approximate scores, corroboration and display names are never consulted. -/
theorem exact_key_fast_path (score : String → String → Nat) (gs : List Wine)
    (pre post : List Wine) (r : Wine) (k : String)
    (hk : r.lwin16 = some k) (hne : k ≠ "") (hmem : (gsKeys gs).contains k = true) :
    fuzzy_match_wines score (pre ++ r :: post) gs = fuzzy_match_wines score (pre ++ post) gs := by
  unfold fuzzy_match_wines
  rw [List.filterMap_append, List.filterMap_append]
  congr 1
  have hhit : exactHit (gsKeys gs) r = true := by
    simp only [exactHit, hk, Bool.and_eq_true, bne_iff_ne, ne_eq]
    exact ⟨hne, hmem⟩
  have hr : matchRecord score (gsKeys gs) gs 70 r = none := by
    unfold matchRecord
    rw [if_pos hhit]
  rw [List.filterMap_cons]
  simp [hr]

/-- Claim C6, witness: the concrete record `cExact` (whose LWIN16 is in the
index built from `gRef`) produces no missing entry even though its display name
differs from the reference record's. -/
theorem exact_key_fast_path_witness :
    cExact.lwin16 = some "7654321201000075" ∧ ("7654321201000075" : String) ≠ "" ∧
    (gsKeys [gRef]).contains "7654321201000075" = true ∧
    fuzzy_match_wines fuzzEq ([] ++ cExact :: []) [gRef]
      = fuzzy_match_wines fuzzEq ([] ++ []) [gRef] :=
  ⟨rfl, by decide, by decide,
    exact_key_fast_path fuzzEq [gRef] [] [] cExact "7654321201000075" rfl (by decide) (by decide)⟩

/-- Claim C2 counterexample: the cellar record `cManqueExact` carries
`identifier7 = "1234567"`, its exact key misses the reference index built from
`gRef`, and yet the engine reports it matched (no missing entry): only the
approximate phase can have matched it, so a record carrying an identifier7 is
fuzzy-scored, contradicting the claim. -/
theorem fuzzy_phase_runs_with_lwin7 :
    cManqueExact.lwin7 = some "1234567" ∧
    exactHit (gsKeys [gRef]) cManqueExact = false ∧
    fuzzy_match_wines fuzzEq [cManqueExact] [gRef] = [] := by
  refine ⟨rfl, by decide, by decide⟩

/-- Claim C2 as amended: in `fuzzy_match_wines` the approximate phase governs
every record whose exact-key test fails and whose normalized name is nonempty —
whether or not `identifier7` is present: such a record is matched exactly when
the approximate acceptance test (best candidate scoring at least the threshold,
plus vintage and volume corroboration) passes. -/
theorem fuzzy_phase_iff_no_exact_hit (score : String → String → Nat) (keys : List String)
    (gs : List Wine) (t : Nat) (r : Wine)
    (hx : exactHit keys r = false) (hn : r.wine_normalized ≠ "") :
    ((matchRecord score keys gs t r).isNone ↔ fuzzyAccepts score gs t r = true) := by
  unfold matchRecord fuzzyAccepts
  rw [if_neg (by simp [hx]), if_pos hn]
  rcases hbm : bestMatch score r.wine_normalized gs with ⟨bs, bm⟩
  cases bm with
  | some b =>
    dsimp only
    by_cases ht : t ≤ bs
    · rw [if_pos ht]
      by_cases hc : (vintage_match r.vintage b.vintage
          && size_match r.contenance_cl b.contenance_cl) = true
      · rw [if_pos hc]
        simp [ht, hc]
      · rw [if_neg hc]
        simp [ht, hc]
    · rw [if_neg ht]
      simp [ht]
  | none =>
    dsimp only
    simp

/-- Claim C2 amended, witness: the record `cSansLwin` (no exact hit against an
empty key index, nonempty normalized name) is matched precisely because the
approximate acceptance test passes. -/
theorem fuzzy_phase_iff_no_exact_hit_witness :
    exactHit [] cSansLwin = false ∧ cSansLwin.wine_normalized ≠ "" ∧
    ((matchRecord fuzzEq [] [gRef] 70 cSansLwin).isNone
      ↔ fuzzyAccepts fuzzEq [gRef] 70 cSansLwin = true) :=
  ⟨by decide, by decide,
    fuzzy_phase_iff_no_exact_hit fuzzEq [] [gRef] 70 cSansLwin (by decide) (by decide)⟩

/-- Claim C8 (confirmed): holding the scorer, the key index, the reference
collection and the record fixed, if the record is reported matched via the
approximate phase at threshold `t2`, then it is also matched via the
approximate phase at any threshold `t1 ≤ t2` — raising the threshold can only
move records from matched-via-fuzzy to missing, never the reverse. -/
theorem threshold_monotone (score : String → String → Nat) (keys : List String)
    (gs : List Wine) (t1 t2 : Nat) (r : Wine) (h12 : t1 ≤ t2)
    (h : matchedViaFuzzy score keys gs t2 r = true) :
    matchedViaFuzzy score keys gs t1 r = true := by
  unfold matchedViaFuzzy at h ⊢
  simp only [Bool.and_eq_true, Bool.not_eq_true'] at h ⊢
  obtain ⟨hx, hm⟩ := h
  refine ⟨hx, ?_⟩
  unfold matchRecord at hm ⊢
  rw [if_neg (by simp [hx])] at hm ⊢
  by_cases hn : r.wine_normalized ≠ ""
  · rw [if_pos hn] at hm ⊢
    rcases hbm : bestMatch score r.wine_normalized gs with ⟨bs, bm⟩
    rw [hbm] at hm
    cases bm with
    | some b =>
      dsimp only at hm ⊢
      by_cases ht2 : t2 ≤ bs
      · rw [if_pos ht2] at hm
        rw [if_pos (le_trans h12 ht2)]
        exact hm
      · rw [if_neg ht2] at hm
        simp at hm
    | none =>
      dsimp only at hm
      simp at hm
  · rw [if_neg hn] at hm
    simp at hm

/-- Claim C8, witness: `cSansLwin` is matched via fuzzy against `gRef` at
threshold 70, hence also at the lower threshold 50. -/
theorem threshold_monotone_witness :
    50 ≤ 70 ∧ matchedViaFuzzy fuzzEq [] [gRef] 70 cSansLwin = true ∧
    matchedViaFuzzy fuzzEq [] [gRef] 50 cSansLwin = true :=
  ⟨by decide, by decide,
    threshold_monotone fuzzEq [] [gRef] 50 70 cSansLwin (by decide) (by decide)⟩

/-- Claim C9 counterexample: the row whose only populated cell is `"***"` has a
nonempty display name, so projection keeps it, yet its normalized name is empty
— the record reaches the engine with an empty comparison key, contradicting the
claim that such records are dropped upstream. -/
theorem empty_normalized_reaches_engine :
    process_livredecave [[none, none, some "***"]] = [wStar] ∧
    wStar.wine ≠ "" ∧ wStar.wine_normalized = "" ∧
    normalize_string wStar.wine = "" := by
  refine ⟨by decide, by decide, rfl, by decide⟩

/-- Claim C9 as amended: projection drops a row iff its joined display name is
empty or the accessory filter fires — not when the name merely normalizes to
nothing.  Every projected record has a nonempty display name and carries
`normalized_name = normalize_string display_name` (so `normalized_name` is
empty iff the display name normalizes to nothing); a record with an empty
normalized name whose exact key misses the index skips the approximate phase
inside the engine and is reported missing with the default reason. -/
theorem projection_keeps_empty_normalized :
    (∀ rows w, w ∈ process_livredecave rows →
        w.wine ≠ "" ∧ w.wine_normalized = normalize_string w.wine)
  ∧ (∀ (score : String → String → Nat) keys gs t r, exactHit keys r = false →
        r.wine_normalized = "" →
        matchRecord score keys gs t r
          = some (mkMissing r "none" "Aucune correspondance trouvée")) := by
  constructor
  · intro rows w hw
    unfold process_livredecave at hw
    rw [List.mem_filterMap] at hw
    obtain ⟨⟨idx, row⟩, _, hpr⟩ := hw
    unfold processRowLD at hpr
    dsimp only at hpr
    split at hpr
    · simp at hpr
    · split at hpr
      · simp at hpr
      · rename_i hname hacc
        cases hpr
        exact ⟨hname, rfl⟩
  · intro score keys gs t r hx hn
    unfold matchRecord
    rw [if_neg (by simp [hx]), if_neg (by simp [hn])]

/-- Claim C9 amended, witness at the `"***"` row and the record `wStar`. -/
theorem projection_keeps_empty_normalized_witness :
    (wStar ∈ process_livredecave [[none, none, some "***"]] ∧
      wStar.wine ≠ "" ∧ wStar.wine_normalized = normalize_string wStar.wine) ∧
    (exactHit [] wStar = false ∧ wStar.wine_normalized = "" ∧
      matchRecord fuzzEq [] [] 70 wStar
        = some (mkMissing wStar "none" "Aucune correspondance trouvée")) :=
  ⟨⟨by decide, projection_keeps_empty_normalized.1 [[none, none, some "***"]] wStar (by decide)⟩,
   ⟨by decide, rfl,
     projection_keeps_empty_normalized.2 fuzzEq [] [] 70 wStar (by decide) rfl⟩⟩

theorem splitWSF_nil (fuel : Nat) : splitWSF fuel [] = [] := by
  cases fuel <;> rfl

theorem dropWhile_head_false (p : Char → Bool) :
    ∀ (l : List Char) (c : Char) (cs : List Char), l.dropWhile p = c :: cs → p c = false := by
  intro l
  induction l with
  | nil => intro c cs h; simp [List.dropWhile] at h
  | cons a t ih =>
    intro c cs h
    by_cases hp : p a = true
    · rw [List.dropWhile_cons_of_pos hp] at h
      exact ih c cs h
    · rw [List.dropWhile_cons_of_neg hp] at h
      cases h
      simpa using hp

theorem joinSp_cons (w : List Char) (ws : List (List Char)) :
    joinSp (w :: ws) = w ++ (if ws = [] then [] else ' ' :: joinSp ws) := by
  cases ws with
  | nil => simp [joinSp]
  | cons w2 ws2 => simp [joinSp]

theorem splitWSF_words (fuel : Nat) :
    ∀ (l : List Char) (w : List Char), w ∈ splitWSF fuel l →
      w ≠ [] ∧ ∀ c ∈ w, c ∈ l ∧ pyIsSpace c = false := by
  induction fuel with
  | zero => intro l w hw; simp [splitWSF] at hw
  | succ f ih =>
    intro l w hw
    rw [splitWSF] at hw
    cases hd : l.dropWhile pyIsSpace with
    | nil => rw [hd] at hw; simp at hw
    | cons c cs =>
      rw [hd] at hw
      dsimp only at hw
      have hc : pyIsSpace c = false := dropWhile_head_false pyIsSpace l c cs hd
      have hsub : ∀ x ∈ c :: cs, x ∈ l := fun x hx =>
        (List.dropWhile_sublist pyIsSpace).subset (hd ▸ hx)
      rcases List.mem_cons.mp hw with rfl | hw2
      · constructor
        · rw [List.takeWhile_cons_of_pos (by simp [hc])]
          simp
        · intro x hx
          have hx2 : x ∈ c :: cs := (List.takeWhile_sublist _).subset hx
          have hxp := List.mem_takeWhile_imp hx
          exact ⟨hsub x hx2, by simpa using hxp⟩
      · obtain ⟨hne, hall⟩ := ih _ w hw2
        refine ⟨hne, fun x hx => ?_⟩
        obtain ⟨hmem, hsp⟩ := hall x hx
        exact ⟨hsub x ((List.dropWhile_sublist _).subset hmem), hsp⟩

theorem mem_joinSp :
    ∀ (ws : List (List Char)) (c : Char), c ∈ joinSp ws → (∃ w ∈ ws, c ∈ w) ∨ c = ' ' := by
  intro ws
  induction ws with
  | nil => intro c hc; simp [joinSp] at hc
  | cons w ws ih =>
    intro c hc
    rw [joinSp_cons] at hc
    rcases List.mem_append.mp hc with h1 | h2
    · exact Or.inl ⟨w, by simp, h1⟩
    · by_cases hws : ws = []
      · rw [if_pos hws] at h2; simp at h2
      · rw [if_neg hws] at h2
        rcases List.mem_cons.mp h2 with rfl | h3
        · exact Or.inr rfl
        · rcases ih c h3 with ⟨w2, hw2, hc2⟩ | rfl
          · exact Or.inl ⟨w2, by simp [hw2], hc2⟩
          · exact Or.inr rfl

theorem filterMap_id_of_mem (l : List Char) (f : Char → Option Char)
    (h : ∀ c ∈ l, f c = some c) : l.filterMap f = l := by
  induction l with
  | nil => rfl
  | cons a t ih =>
    rw [List.filterMap_cons, h a (by simp)]
    rw [ih (fun c hc => h c (by simp [hc]))]

theorem map_id_of_mem (l : List Char) (f : Char → Char)
    (h : ∀ c ∈ l, f c = c) : l.map f = l := by
  induction l with
  | nil => rfl
  | cons a t ih =>
    rw [List.map_cons, h a (by simp)]
    rw [ih (fun c hc => h c (by simp [hc]))]

theorem splitWSF_joinSp :
    ∀ (ws : List (List Char)), okWords ws →
      ∀ (pre : List Char), (∀ c ∈ pre, pyIsSpace c = true) →
      ∀ (fuel : Nat), (pre ++ joinSp ws).length ≤ fuel →
      splitWSF fuel (pre ++ joinSp ws) = ws := by
  intro ws
  induction ws with
  | nil =>
    intro _ pre hpre fuel _
    cases fuel with
    | zero => rfl
    | succ f =>
      rw [splitWSF]
      have hd : (pre ++ joinSp []).dropWhile pyIsSpace = [] := by
        rw [List.dropWhile_eq_nil_iff]
        intro x hx
        simp only [joinSp, List.append_nil] at hx
        exact hpre x hx
      rw [hd]
  | cons w ws ih =>
    intro hok pre hpre fuel hfuel
    obtain ⟨hwne, hwns⟩ := hok w (by simp)
    cases w with
    | nil => exact absurd rfl hwne
    | cons c w2 =>
      have hcns : pyIsSpace c = false := hwns c (by simp)
      have hwall : ∀ x ∈ c :: w2, (fun y => !pyIsSpace y) x = true := by
        intro x hx
        simp [hwns x hx]
      rw [joinSp_cons] at hfuel ⊢
      cases fuel with
      | zero =>
        exfalso
        simp only [List.length_append, List.length_cons, Nat.le_zero] at hfuel
        omega
      | succ f =>
        rw [splitWSF]
        have hdrop : List.dropWhile pyIsSpace
            (pre ++ ((c :: w2) ++ (if ws = [] then [] else ' ' :: joinSp ws)))
            = c :: (w2 ++ (if ws = [] then [] else ' ' :: joinSp ws)) := by
          rw [List.dropWhile_append_of_pos hpre, List.cons_append]
          exact List.dropWhile_cons_of_neg (by simp [hcns])
        rw [hdrop]
        dsimp only
        rw [← List.cons_append]
        rw [List.takeWhile_append_of_pos hwall, List.dropWhile_append_of_pos hwall]
        cases ws with
        | nil =>
          rw [if_pos rfl, List.takeWhile_nil, List.dropWhile_nil, List.append_nil,
            splitWSF_nil]
        | cons w3 ws3 =>
          rw [if_neg (by simp)]
          rw [List.takeWhile_cons_of_neg (by decide), List.dropWhile_cons_of_neg (by decide)]
          rw [List.append_nil]
          have hok3 : okWords (w3 :: ws3) := fun x hx => hok x (by simp [hx])
          have hsep : (' ' :: joinSp (w3 :: ws3)) = [' '] ++ joinSp (w3 :: ws3) := rfl
          rw [if_neg (by simp)] at hfuel
          rw [hsep, ih hok3 [' '] (by intro x hx; simp at hx; subst hx; decide) f (by
            simp only [List.length_append, List.length_cons, List.length_nil] at hfuel ⊢
            omega)]

theorem cleanChar_class (c : Char) :
    (isLowerAZ (cleanChar c) || isDigitC (cleanChar c) || pyIsSpace (cleanChar c)) = true := by
  unfold cleanChar
  split
  · rename_i h
    exact h
  · decide

theorem cleanChar_fixed (c : Char)
    (h : (isLowerAZ c || isDigitC c || pyIsSpace c) = true) : cleanChar c = c := by
  unfold cleanChar
  rw [if_pos h]

theorem pyLowerChar_fixed (c : Char)
    (h : (isLowerAZ c || isDigitC c) = true ∨ c = ' ') : pyLowerChar c = c := by
  unfold pyLowerChar
  rw [if_neg ?hcond]
  case hcond =>
    simp only [Bool.and_eq_true, decide_eq_true_eq, not_and]
    rcases h with h | rfl
    · simp only [isLowerAZ, isDigitC, Bool.or_eq_true, Bool.and_eq_true,
        decide_eq_true_eq] at h
      rcases h with ⟨h1, h2⟩ | ⟨h1, h2⟩ <;> omega
    · decide

theorem accentPairs_first_large : ∀ p ∈ accentPairs, 192 ≤ p.1.toNat := by decide

theorem stripAccentsChar_ascii (c : Char) (h : c.toNat < 192) :
    stripAccentsChar c = some c := by
  unfold stripAccentsChar
  rw [if_neg ?hcomb]
  case hcomb =>
    simp only [Bool.and_eq_true, decide_eq_true_eq, not_and]
    omega
  have hfind : accentPairs.find? (fun p => p.1 = c) = none := by
    rw [List.find?_eq_none]
    intro p hp
    simp only [decide_eq_true_eq]
    intro heq
    have := accentPairs_first_large p hp
    rw [heq] at this
    omega
  rw [hfind]

theorem class_lt192 (c : Char) (h : (isLowerAZ c || isDigitC c) = true ∨ c = ' ') :
    c.toNat < 192 := by
  rcases h with h | rfl
  · simp only [isLowerAZ, isDigitC, Bool.or_eq_true, Bool.and_eq_true,
      decide_eq_true_eq] at h
    rcases h with ⟨h1, h2⟩ | ⟨h1, h2⟩ <;> omega
  · decide

theorem class_or_space (c : Char) (h : (isLowerAZ c || isDigitC c) = true ∨ c = ' ') :
    (isLowerAZ c || isDigitC c || pyIsSpace c) = true := by
  rcases h with h | rfl
  · simp only [Bool.or_eq_true] at h ⊢
    tauto
  · decide

theorem normalizeL_chars (l : List Char) (c : Char) (hc : c ∈ normalizeL l) :
    (isLowerAZ c || isDigitC c) = true ∨ c = ' ' := by
  unfold normalizeL collapseWS pySplit at hc
  rcases mem_joinSp _ c hc with ⟨w, hw, hcw⟩ | rfl
  · obtain ⟨-, hall⟩ := splitWSF_words _ _ w hw
    obtain ⟨hmem, hsp⟩ := hall c hcw
    rw [List.mem_map] at hmem
    obtain ⟨d, -, rfl⟩ := hmem
    have hcl := cleanChar_class d
    simp only [Bool.or_eq_true] at hcl
    rcases hcl with (h1 | h2) | h3
    · exact Or.inl (by simp [h1])
    · exact Or.inl (by simp [h2])
    · rw [hsp] at h3
      cases h3
  · exact Or.inr rfl

theorem normalizeL_idem (l : List Char) : normalizeL (normalizeL l) = normalizeL l := by
  have hok : okWords (pySplit (((stripAccents l).map pyLowerChar).map cleanChar)) := by
    intro w hw
    obtain ⟨hne, hall⟩ := splitWSF_words _ _ w hw
    exact ⟨hne, fun c hc => (hall c hc).2⟩
  have hchar : ∀ c ∈ normalizeL l, (isLowerAZ c || isDigitC c) = true ∨ c = ' ' :=
    fun c hc => normalizeL_chars l c hc
  conv_lhs => rw [normalizeL]
  have h1 : stripAccents (normalizeL l) = normalizeL l :=
    filterMap_id_of_mem _ _ (fun c hc => stripAccentsChar_ascii c (class_lt192 c (hchar c hc)))
  rw [show stripAccents (normalizeL l) = normalizeL l from h1]
  rw [map_id_of_mem _ _ (fun c hc => pyLowerChar_fixed c (hchar c hc))]
  rw [map_id_of_mem _ _ (fun c hc => cleanChar_fixed c (class_or_space c (hchar c hc)))]
  unfold collapseWS pySplit
  conv_lhs =>
    rw [show normalizeL l
        = joinSp (pySplit (((stripAccents l).map pyLowerChar).map cleanChar)) from rfl]
  rw [show (joinSp (pySplit (((stripAccents l).map pyLowerChar).map cleanChar)))
      = [] ++ joinSp (pySplit (((stripAccents l).map pyLowerChar).map cleanChar)) from rfl]
  rw [splitWSF_joinSp _ hok [] (by simp) _ (by simp)]
  rfl

/-- Claim C7 (confirmed): `normalize_string` is idempotent —
`normalize_string (normalize_string s) = normalize_string s` for every string. -/
theorem normalize_string_idem (s : String) :
    normalize_string (normalize_string s) = normalize_string s := by
  unfold normalize_string
  by_cases h : s = ""
  · rw [if_pos h]
    rw [if_pos rfl]
  · rw [if_neg h]
    by_cases h2 : (⟨normalizeL s.data⟩ : String) = ""
    · rw [if_pos h2]
      exact h2.symm
    · rw [if_neg h2, data_mk, normalizeL_idem]
